import Mathlib

/-!
# Toggle command, right prompt, CLI dispatch, python virtual environments and
# executable path normalisation

A shallow embedding of the parts of the repository that the verified
properties talk about:

* `src/cli/toggle.go`      : `toggleCmd.Run`
* `prompt/rprompt.go`      : `Engine.RPrompt`
* `src/main.go`            : `main`, `getExecutablePath`
* `src/segment_python.go`  : `python.loadContext`, `python.canUseVenvName`,
                             `python.inContext`

Go strings are modelled as lists of characters (`Str`). The only separators
and patterns the code uses (`","`, `"\\"`, `" "`) are single ASCII bytes, so
working on characters instead of bytes does not change any result.
-/

set_option autoImplicit false

namespace OMP

/-- Go `string`, as the list of its characters. -/
abbrev Str := List Char

/-! ## The part of Go's `strings` package used by the code -/

namespace strings

/-- Go `strings.Split(s, sep)` for a separator of one character: the pieces of
`s` between consecutive separators. The result is never empty; splitting the
empty string gives one empty piece. -/
def Split : Str → Char → List Str
  | [], _ => [[]]
  | c :: s, sep =>
    if c = sep then [] :: Split s sep
    else
      match Split s sep with
      | [] => [[c]]
      | w :: ws => (c :: w) :: ws

/-- Go `strings.Join(elems, sep)`: the elements with `sep` between each two
neighbours. -/
def Join : List Str → Str → Str
  | [], _ => []
  | [a], _ => a
  | a :: b :: rest, sep => a ++ sep ++ Join (b :: rest) sep

end strings

/-! ## Session cache (collaborator of the toggle command) -/

namespace cache

/-- One cache entry: the stored value and the TTL (in minutes) it was written
with. -/
structure Entry where
  value : Str
  ttl : Int
deriving DecidableEq

/-- Modelled from the spec: the session-scoped Cache Store (`env.Session()`),
whose implementation is not among the sources. It maps keys to entries;
`Set` is last-writer-wins on one key and a `Get` right after a `Set` on the same
key returns the value written. -/
abbrev Session := Str → Option Entry

/-- Modelled from the spec: `Get(key) -> (value, found)`; an absent key yields
Go's zero string and `false`. -/
def Session.Get (c : Session) (key : Str) : Str × Bool :=
  match c key with
  | some e => (e.value, true)
  | none => ([], false)

/-- Modelled from the spec: `Set(key, value, ttlMinutes)` overwrites the entry
of `key` and leaves every other key alone. -/
def Session.Set (c : Session) (key value : Str) (ttl : Int) : Session :=
  fun k => if k = key then some ⟨value, ttl⟩ else c k

/-- The reserved key `cache.TOGGLECACHE` of the toggled-segment list. The
constant is declared in package `cache`, which is not among the sources; no
result below depends on its value. -/
def TOGGLECACHE : Str := "toggle_cache".toList

end cache

/-! ## `src/cli/toggle.go` -/

namespace cli

open strings cache

/-- The `for _, toggle := range toggles` loop of `toggleCmd.Run`
(toggle.go 35-41), run on the state `(newToggles, match)`. -/
def toggleLoop (segment : Str) : List Str → List Str × Bool → List Str × Bool
  | [], st => st
  | toggle :: rest, (newToggles, matched) =>
    if toggle = segment then toggleLoop segment rest (newToggles, true)
    else toggleLoop segment rest (newToggles ++ [toggle], matched)

/-- Lines 27-30 of toggle.go: the names read from the stored value. -/
def readToggles (togglesCache : Str) : List Str :=
  if togglesCache.length ≠ 0 then Split togglesCache ',' else []

/-- Lines 33-45 of toggle.go: the list that is joined and written back. -/
def newToggles (toggles : List Str) (segment : Str) : List Str :=
  let st := toggleLoop segment toggles ([], false)
  if !st.2 then st.1 ++ [segment] else st.1

/-- The `Run` function of `toggleCmd` (toggle.go 17-48) as a transformer of
the session cache. `env.Init()` opens the session and the deferred
`env.Close()` persists it; with no argument only the help text is shown. -/
def Run (env : Session) (args : List Str) : Session :=
  match args with
  | [] => env
  | segment :: _ =>
    let togglesCache := (env.Get TOGGLECACHE).1
    let toggles := readToggles togglesCache
    env.Set TOGGLECACHE (Join (newToggles toggles segment) ",".toList) 1440

/-- The value stored under the toggle key (empty when there is none). -/
def storedToggles (env : Session) : Str := (env.Get TOGGLECACHE).1

/-- The TTL recorded with the toggle key, if the key is present. -/
def storedTTL (env : Session) : Option Int := (env TOGGLECACHE).map Entry.ttl

/-- The wording of the property: the list `L` with every occurrence of `s`
removed when `s` occurs in `L`, and `L` followed by `s` when it does not. -/
def specToggles (L : List Str) (s : Str) : List Str :=
  if s ∈ L then L.filter (fun x => decide (x ≠ s)) else L ++ [s]

/-- The wording of the property: the names read from a stored value, the empty
list when the value is empty and otherwise the value split on the comma (with
the library function `List.splitOn`). -/
def specNames (v : Str) : List Str := if v = [] then [] else v.splitOn ','

/-- The wording of the property: the comma-join of a list of names (with the
library function `List.intercalate`). -/
def specJoin (l : List Str) : Str := [','].intercalate l

/-- The segment name used in the idempotence property. -/
def git : Str := "git".toList

/-- A session cache with no entry at all. -/
def emptySession : Session := fun _ => none

/-- A session cache holding `v` under the toggle key and nothing else. -/
def sessionWith (v : Str) : Session := emptySession.Set TOGGLECACHE v 1440

end cli

/-! ## `prompt/rprompt.go` -/

namespace config

/-- The type `config.BlockType`, a Go string type. -/
abbrev BlockType := Str

/-- The constant `config.RPrompt`. Package `config` is not among the sources;
the value is the block type name used in configuration files. -/
def RPrompt : BlockType := "rprompt".toList

/-- The type `config.Block`: its `Type` field and the rest of the block (segments
and their state), which `Engine.RPrompt` never looks at directly. -/
structure Block (β : Type) where
  Type_ : BlockType
  data : β

end config

namespace shell

/-- The constant `shell.ELVISH` (package `shell` is not among the sources). -/
def ELVISH : Str := "elvish".toList

end shell

namespace runtime

/-- The constant `runtime.WINDOWS` (package `runtime` is not among the
sources). -/
def WINDOWS : Str := "windows".toList

/-- The two facts `Engine.RPrompt` asks of `e.Env`: `Shell()` and `GOOS()`. -/
structure Environment where
  Shell : Str
  GOOS : Str

end runtime

namespace prompt

open config

/-- The type `config.Config`, reduced to its list of blocks. -/
structure Config (β : Type) where
  Blocks : List (Block β)

/-- The fields of `prompt.Engine` that `RPrompt` reads or writes. -/
structure Engine (β : Type) where
  Config : Config β
  Env : runtime.Environment
  rpromptLength : Int

/-- The functions `Engine.RPrompt` calls that are defined outside
`rprompt.go`, taken as parameters: `(*config.Block).Init`, which may change the
block it is called on, `(*config.Block).Enabled`, and the method
`(*Engine).renderBlockSegments`, which receives the engine (with all its blocks)
and the block to lay out and returns the layout text and its measured width. -/
structure Collaborators (β : Type) where
  Init : runtime.Environment → Block β → Block β
  Enabled : Block β → Bool
  renderBlockSegments : Engine β → Block β → Str × Int

/-- A call made on a block, identified by its position in `Config.Blocks`. -/
inductive Call where
  | Init (i : Nat)
  | Enabled (i : Nat)
  | renderBlockSegments (i : Nat)
deriving DecidableEq

/-- What one run of `Engine.RPrompt` produces: the returned text, the engine
afterwards and the calls made on blocks, in order. -/
structure Result (β : Type) where
  text : Str
  engine : Engine β
  calls : List Call

/-- The selection loop of `Engine.RPrompt` (rprompt.go 12-19), started at
position `i`: the first block whose type is `RPrompt`, with its position. -/
def findRPrompt {β : Type} : List (Block β) → Nat → Option (Nat × Block β)
  | [], _ => none
  | block :: rest, i =>
    if block.Type_ ≠ config.RPrompt then findRPrompt rest (i + 1) else some (i, block)

/-- The method `Engine.RPrompt` (rprompt.go 9-40). -/
def RPrompt {β : Type} (c : Collaborators β) (e : Engine β) : Result β :=
  match findRPrompt e.Config.Blocks 0 with
  | none => ⟨[], e, []⟩
  | some (i, rprompt) =>
    let rprompt := c.Init e.Env rprompt
    let e := { e with Config := ⟨e.Config.Blocks.set i rprompt⟩ }
    if !c.Enabled rprompt then ⟨[], e, [Call.Init i, Call.Enabled i]⟩
    else
      let rendered := c.renderBlockSegments e rprompt
      let text := rendered.1
      let e := { e with rpromptLength := rendered.2 }
      let text :=
        if e.Env.Shell = shell.ELVISH ∧ e.Env.GOOS ≠ runtime.WINDOWS then text ++ " ".toList
        else text
      ⟨text, e, [Call.Init i, Call.Enabled i, Call.renderBlockSegments i]⟩

/-- The positions of the blocks that were rendered. -/
def rendered (calls : List Call) : List Nat :=
  calls.filterMap fun
    | Call.renderBlockSegments i => some i
    | _ => none

/-- A block of type `rprompt` without any content. -/
def rpromptBlock : Block Unit := ⟨config.RPrompt, ()⟩

/-- A block of type `prompt` without any content. -/
def promptBlock : Block Unit := ⟨"prompt".toList, ()⟩

/-- Collaborators for content-free blocks: `Init` changes nothing, `Enabled`
answers `enabled`, and the layout is the text `x` of width 1. -/
def unitCollaborators (enabled : Bool) : Collaborators Unit :=
  ⟨fun _ b => b, fun _ => enabled, fun _ _ => ("x".toList, 1)⟩

/-- An engine over content-free blocks. -/
def unitEngine (blocks : List (Block Unit)) (sh goos : Str) : Engine Unit :=
  ⟨⟨blocks⟩, ⟨sh, goos⟩, 0⟩

end prompt

/-! ## `src/main.go` -/

namespace main_

open strings

/-- The command-line flags that decide what `main` does. -/
structure Args where
  PrintConfig : Bool
  PrintShell : Bool
  Version : Bool
  Debug : Bool
  Millis : Bool
  Init : Bool
  PrintInit : Bool
  ExportPNG : Bool
  RPrompt : Bool
  Command : Str
  PrintTransient : Bool
  CachePath : Bool

/-- The output-producing calls `main` can make. -/
inductive Step where
  | printVersion
  | printShell
  | printMillis
  | printCachePath
  | initShell
  | printShellInit
  | exportConfig
  | debug
  | renderTransientPrompt
  | renderTooltip (command : Str)
  | renderRPrompt
  | render
  | SavePNG
deriving DecidableEq

/-- The function `main` (main.go 155-250), as the list of output-producing
calls it makes for the given flags. -/
def main (args : Args) : List Step :=
  if args.Version then [Step.printVersion]
  else if args.PrintShell then [Step.printShell]
  else if args.Millis then [Step.printMillis]
  else if args.CachePath then [Step.printCachePath]
  else if args.Init then [Step.initShell]
  else if args.PrintInit then [Step.printShellInit]
  else if args.PrintConfig then [Step.exportConfig]
  else if args.Debug then [Step.debug]
  else if args.PrintTransient then [Step.renderTransientPrompt]
  else if args.Command.length ≠ 0 then [Step.renderTooltip args.Command]
  else if args.RPrompt then [Step.renderRPrompt]
  else if !args.ExportPNG then [Step.render]
  else [Step.render, Step.SavePNG]

/-- Whether a call is one of the four prompt renderers of the engine. -/
def Step.isRenderer : Step → Bool
  | Step.renderTransientPrompt => true
  | Step.renderTooltip _ => true
  | Step.renderRPrompt => true
  | Step.render => true
  | _ => false

/-- The renderer calls among the calls of `main`. -/
def renderers (args : Args) : List Step := (main args).filter Step.isRenderer

/-- The wording of the property: the renderer that was requested. -/
def requested (args : Args) : Step :=
  if args.PrintTransient = true then Step.renderTransientPrompt
  else if args.Command ≠ [] then Step.renderTooltip args.Command
  else if args.RPrompt = true then Step.renderRPrompt
  else Step.render

end main_

/-! ## `src/segment_python.go` -/

namespace properties

/-- The type `properties.Property`, a Go string type. -/
abbrev Property := Str

/-- The constant `properties.DisplayDefault` (package `properties` is not among
the sources). -/
def DisplayDefault : Property := "display_default".toList

/-- The interface `properties.Properties`, reduced to the method the python
segment calls: `GetBool(property, defaultValue)`. -/
structure Properties where
  GetBool : Property → Bool → Bool

end properties

namespace environment

/-- The interface `environment.Environment`, reduced to what the python segment
uses: `Getenv`, and the package function `environment.Base(env, path)`, which
depends on the path separator of the environment. -/
structure Environment where
  Getenv : Str → Str
  Base : Str → Str

end environment

namespace python_

open properties

/-- The constant `FetchVirtualEnv` of segment_python.go. -/
def FetchVirtualEnv : Property := "fetch_virtual_env".toList

/-- The fields of `language` the python segment reads. -/
structure language where
  env : environment.Environment
  props : Properties

/-- The struct `python`. -/
structure python where
  language : language
  Venv : Str

/-- The loop over `invalidNames` in `python.canUseVenvName`
(segment_python.go 85-89). -/
def invalidNamesLoop (name : Str) : List Str → Bool
  | [] => true
  | a :: rest => if a = name then false else invalidNamesLoop name rest

/-- The method `python.canUseVenvName` (segment_python.go 77-91). -/
def canUseVenvName (p : python) (name : Str) : Bool :=
  if name = "".toList ∨ name = ".".toList then false
  else if p.language.props.GetBool DisplayDefault true then true
  else invalidNamesLoop name ["system".toList, "base".toList]

/-- The list `venvVars` of `python.loadContext`. -/
def venvVars : List Str :=
  ["VIRTUAL_ENV".toList, "CONDA_ENV_PATH".toList, "CONDA_DEFAULT_ENV".toList,
    "PYENV_VERSION".toList]

/-- The loop of `python.loadContext` (segment_python.go 63-70) over the
remaining variables. -/
def loadContextLoop (p : python) : List Str → python
  | [] => p
  | venvVar :: rest =>
    let venv := p.language.env.Getenv venvVar
    let name := p.language.env.Base venv
    if canUseVenvName p name then { p with Venv := name } else loadContextLoop p rest

/-- The method `python.loadContext` (segment_python.go 52-71). -/
def loadContext (p : python) : python :=
  if !p.language.props.GetBool FetchVirtualEnv true then p
  else loadContextLoop p venvVars

/-- The method `python.inContext` (segment_python.go 73-75). -/
def inContext (p : python) : Bool := p.Venv ≠ "".toList

/-- The wording of the property: a name is usable when it is neither empty nor
`.` and, if `display_default` is false, neither `system` nor `base`. -/
def usable (displayDefault : Bool) (name : Str) : Prop :=
  name ≠ "".toList ∧ name ≠ ".".toList ∧
    (displayDefault = false → name ≠ "system".toList ∧ name ≠ "base".toList)

instance usableDecidable (displayDefault : Bool) (name : Str) :
    Decidable (usable displayDefault name) := by
  unfold usable
  exact inferInstance

/-- The wording of the property: the base names of the variables VIRTUAL_ENV,
CONDA_ENV_PATH, CONDA_DEFAULT_ENV and PYENV_VERSION, in that order. -/
def candidates (p : python) : List Str :=
  [p.language.env.Base (p.language.env.Getenv "VIRTUAL_ENV".toList),
    p.language.env.Base (p.language.env.Getenv "CONDA_ENV_PATH".toList),
    p.language.env.Base (p.language.env.Getenv "CONDA_DEFAULT_ENV".toList),
    p.language.env.Base (p.language.env.Getenv "PYENV_VERSION".toList)]

/-- The result the property describes: the first usable candidate, or the
previous `Venv` when there is none. -/
def selected (p : python) : Str :=
  match (candidates p).find?
      (fun name => decide (usable (p.language.props.GetBool DisplayDefault true) name)) with
  | some name => name
  | none => p.Venv

/-- An example segment: `VIRTUAL_ENV` is unset, `CONDA_DEFAULT_ENV` is `base`,
`PYENV_VERSION` is `3.11`, the base name of a value is the value itself,
fetch_virtual_env is true and every other boolean property has the value
`flag`. -/
def example_ (flag : Bool) : python :=
  ⟨⟨⟨fun v =>
        if v = "CONDA_DEFAULT_ENV".toList then "base".toList
        else if v = "PYENV_VERSION".toList then "3.11".toList
        else [],
      fun path => path⟩,
    ⟨fun property _ => if property = FetchVirtualEnv then true else flag⟩⟩, []⟩

end python_

/-! ## Facts about `Split` and `Join` -/

namespace strings

theorem Split_ne_nil (s : Str) (sep : Char) : Split s sep ≠ [] := by
  induction s with
  | nil => simp [Split]
  | cons c s ih =>
    unfold Split
    split
    · simp
    · split <;> simp

theorem Join_cons_of_ne_nil (a : Str) (l : List Str) (sep : Str) (h : l ≠ []) :
    Join (a :: l) sep = a ++ sep ++ Join l sep := by
  cases l with
  | nil => exact absurd rfl h
  | cons b rest => rfl

theorem Join_Split (s : Str) (sep : Char) : Join (Split s sep) [sep] = s := by
  induction s with
  | nil => rfl
  | cons c s ih =>
    unfold Split
    split
    · rename_i h
      rw [Join_cons_of_ne_nil _ _ _ (Split_ne_nil s sep), ih]
      simp [h]
    · cases hs : Split s sep with
      | nil => exact absurd hs (Split_ne_nil s sep)
      | cons w ws =>
        rw [hs] at ih
        cases ws with
        | nil =>
          simp only [Join] at ih ⊢
          rw [ih]
        | cons w2 ws2 =>
          simp only [Join] at ih ⊢
          rw [← ih]
          simp

theorem Split_no_sep (s : Str) (sep : Char) : ∀ w ∈ Split s sep, sep ∉ w := by
  induction s with
  | nil => simp [Split]
  | cons c s ih =>
    unfold Split
    split
    · intro w hw
      rcases List.mem_cons.1 hw with rfl | hw
      · simp
      · exact ih w hw
    · rename_i hc
      cases hs : Split s sep with
      | nil => exact absurd hs (Split_ne_nil s sep)
      | cons w ws =>
        rw [hs] at ih
        intro x hx
        rcases List.mem_cons.1 hx with rfl | hx
        · intro hmem
          rcases List.mem_cons.1 hmem with h | h
          · exact hc h.symm
          · exact ih w (List.mem_cons_self _ _) h
        · exact ih x (List.mem_cons_of_mem _ hx)

theorem Split_append_sep (a : Str) (sep : Char) (t : Str) (ha : sep ∉ a) :
    Split (a ++ sep :: t) sep = a :: Split t sep := by
  induction a with
  | nil => simp [Split]
  | cons c a ih =>
    have hc : c ≠ sep := fun h => ha (by simp [h])
    have ha2 : sep ∉ a := fun h => ha (List.mem_cons_of_mem _ h)
    simp only [List.cons_append]
    rw [Split, if_neg hc, ih ha2]

theorem Split_of_no_sep (a : Str) (sep : Char) (ha : sep ∉ a) : Split a sep = [a] := by
  induction a with
  | nil => rfl
  | cons c a ih =>
    have hc : c ≠ sep := fun h => ha (by simp [h])
    have ha2 : sep ∉ a := fun h => ha (List.mem_cons_of_mem _ h)
    rw [Split, if_neg hc, ih ha2]

theorem Split_Join (l : List Str) (sep : Char) (hl : l ≠ [])
    (h : ∀ w ∈ l, sep ∉ w) : Split (Join l [sep]) sep = l := by
  induction l with
  | nil => exact absurd rfl hl
  | cons a l ih =>
    cases l with
    | nil => exact Split_of_no_sep a sep (h a (List.mem_cons_self _ _))
    | cons b rest =>
      have ih2 := ih (by simp) (fun w hw => h w (List.mem_cons_of_mem _ hw))
      simp only [Join] at ih2 ⊢
      rw [List.append_assoc, List.singleton_append,
        Split_append_sep a sep _ (h a (List.mem_cons_self _ _)), ih2]

theorem Split_eq_splitOn (s : Str) (sep : Char) : Split s sep = s.splitOn sep := by
  induction s with
  | nil => rfl
  | cons c t ih =>
    rw [Split, List.splitOn, List.splitOnP_cons]
    rw [List.splitOn] at ih
    by_cases h : c = sep
    · simp [h, ih]
    · rw [if_neg h, ih]
      have hb : (c == sep) = false := by simpa using h
      rw [hb]
      cases hs : List.splitOnP (fun x => x == sep) t with
      | nil => exact absurd (ih.trans hs) (Split_ne_nil t sep)
      | cons w ws => simp

theorem Join_eq_intercalate (l : List Str) (sep : Str) : Join l sep = sep.intercalate l := by
  induction l with
  | nil => rfl
  | cons a rest ih =>
    cases rest with
    | nil => simp [Join, List.intercalate]
    | cons b rest2 =>
      rw [Join, ih]
      simp [List.intercalate, List.intersperse]

theorem Join_eq_nil (l : List Str) (sep : Char) (h : Join l [sep] = []) :
    l = [] ∨ l = [[]] := by
  cases l with
  | nil => exact Or.inl rfl
  | cons a rest =>
    cases rest with
    | nil =>
      simp only [Join] at h
      exact Or.inr (by rw [h])
    | cons b rest2 =>
      simp [Join] at h

end strings

/-! ## The toggle command -/

namespace cli

open strings cache

theorem toggleLoop_eq (segment : Str) (l acc : List Str) (m : Bool) :
    toggleLoop segment l (acc, m) =
      (acc ++ l.filter (fun x => decide (x ≠ segment)), m || decide (segment ∈ l)) := by
  induction l generalizing acc m with
  | nil => simp [toggleLoop]
  | cons t rest ih =>
    by_cases h : t = segment
    · subst h
      simp [toggleLoop, ih]
    · have h2 : ¬ segment = t := fun e => h e.symm
      simp [toggleLoop, ih, h, h2]

theorem newToggles_eq_spec (L : List Str) (s : Str) : newToggles L s = specToggles L s := by
  unfold newToggles specToggles
  rw [toggleLoop_eq]
  by_cases h : s ∈ L
  · simp [h]
  · simp only [h, decide_False, Bool.or_self, Bool.not_false, if_true, if_false, List.nil_append]
    congr 1
    rw [List.filter_eq_self]
    intro a ha
    have : a ≠ s := fun e => h (e ▸ ha)
    simpa using this

theorem readToggles_no_comma (v : Str) : ∀ w ∈ readToggles v, ',' ∉ w := by
  unfold readToggles
  split
  · exact Split_no_sep v ','
  · simp

theorem Join_readToggles (v : Str) : Join (readToggles v) [','] = v := by
  unfold readToggles
  split
  · exact Join_Split v ','
  · rename_i h
    have : v = [] := by
      cases v with
      | nil => rfl
      | cons c t => simp at h
    subst this
    rfl

theorem readToggles_ne_singleton_nil (v : Str) : readToggles v ≠ [[]] := by
  intro h
  have hj := Join_readToggles v
  rw [h] at hj
  simp only [Join] at hj
  subst hj
  simp [readToggles] at h

theorem readToggles_Join (l : List Str) (h : ∀ w ∈ l, ',' ∉ w) (hl : l ≠ [[]]) :
    readToggles (Join l [',']) = l := by
  unfold readToggles
  split
  · rename_i hlen
    have hne : l ≠ [] := by
      intro e
      subst e
      simp [Join] at hlen
    exact Split_Join l ',' hne h
  · rename_i hlen
    have hnil : Join l [','] = [] := by
      cases hj : Join l [','] with
      | nil => rfl
      | cons c t => simp [hj] at hlen
    rcases Join_eq_nil l ',' hnil with e | e
    · exact e.symm
    · exact absurd e hl

theorem storedToggles_Run (env : Session) (s : Str) :
    storedToggles (Run env [s]) =
      Join (newToggles (readToggles (storedToggles env)) s) [','] := by
  simp [storedToggles, Run, Session.Get, Session.Set]

theorem specToggles_no_comma (L : List Str) (s : Str) (hL : ∀ w ∈ L, ',' ∉ w)
    (hs : ',' ∉ s) : ∀ w ∈ specToggles L s, ',' ∉ w := by
  intro w hw
  unfold specToggles at hw
  split at hw
  · exact hL w (List.mem_filter.1 hw).1
  · rcases List.mem_append.1 hw with h | h
    · exact hL w h
    · rw [List.mem_singleton.1 h]
      exact hs

theorem specToggles_nodup (L : List Str) (s : Str) (hL : L.Nodup) :
    (specToggles L s).Nodup := by
  unfold specToggles
  split
  · exact hL.filter _
  · rename_i h
    rw [List.nodup_append]
    refine ⟨hL, List.nodup_singleton s, ?_⟩
    intro a ha hb
    rw [List.mem_singleton.1 hb] at ha
    exact h ha

/-- C1: for every session whose stored toggle names do not include `git`
(an absent or empty value included), toggling `git` twice in a row writes back
the original value; the value written by the first run has `git` among its
names and the value written by the second run has not. -/
theorem C1_toggle_git_twice (env : Session)
    (h : git ∉ readToggles (storedToggles env)) :
    storedToggles (Run (Run env [git]) [git]) = storedToggles env ∧
      git ∈ readToggles (storedToggles (Run env [git])) ∧
      git ∉ readToggles (storedToggles (Run (Run env [git]) [git])) := by
  have hgit : ',' ∉ git := by decide
  have h1 : storedToggles (Run env [git]) =
      Join (readToggles (storedToggles env) ++ [git]) [','] := by
    rw [storedToggles_Run, newToggles_eq_spec, specToggles, if_neg h]
  have hno : ∀ w ∈ readToggles (storedToggles env) ++ [git], ',' ∉ w := by
    intro w hw
    rcases List.mem_append.1 hw with hw | hw
    · exact readToggles_no_comma _ w hw
    · rw [List.mem_singleton.1 hw]
      exact hgit
  have hne : readToggles (storedToggles env) ++ [git] ≠ [[]] := by
    cases hL : readToggles (storedToggles env) with
    | nil => decide
    | cons a t => simp
  have h2 : readToggles (storedToggles (Run env [git])) =
      readToggles (storedToggles env) ++ [git] := by
    rw [h1]
    exact readToggles_Join _ hno hne
  have hfilter : (readToggles (storedToggles env)).filter (fun x => decide (x ≠ git)) =
      readToggles (storedToggles env) := by
    rw [List.filter_eq_self]
    intro a ha
    have : a ≠ git := fun e => h (e ▸ ha)
    simpa using this
  have h3 : storedToggles (Run (Run env [git]) [git]) = storedToggles env := by
    rw [storedToggles_Run, newToggles_eq_spec, h2, specToggles, if_pos (by simp),
      List.filter_append, hfilter]
    have hg : List.filter (fun x => decide (x ≠ git)) [git] = [] := by simp
    rw [hg, List.append_nil]
    exact Join_readToggles _
  refine ⟨h3, ?_, ?_⟩
  · rw [h2]
    simp
  · rw [h3]
    exact h

/-- Witness of C1: the stored value `a,b`. -/
theorem C1_toggle_git_twice_witness :
    git ∉ readToggles (storedToggles (sessionWith "a,b".toList)) ∧
      (storedToggles (Run (Run (sessionWith "a,b".toList) [git]) [git]) =
          storedToggles (sessionWith "a,b".toList) ∧
        git ∈ readToggles (storedToggles (Run (sessionWith "a,b".toList) [git])) ∧
        git ∉ readToggles (storedToggles (Run (Run (sessionWith "a,b".toList) [git]) [git]))) :=
  ⟨by decide, C1_toggle_git_twice (sessionWith "a,b".toList) (by decide)⟩

theorem readToggles_eq_specNames (v : Str) : readToggles v = specNames v := by
  unfold readToggles specNames
  cases v with
  | nil => rfl
  | cons c t =>
    rw [if_pos (by simp), if_neg (by simp)]
    exact Split_eq_splitOn _ _

/-- C2: with `L` the names read from the session store under the toggle key
(the empty list when the stored value is empty, otherwise the stored value
split on the comma), the toggle command for segment `s` writes back, under that
key, the comma-join of `L` without every occurrence of `s` when `s` occurs in
`L` and of `L` followed by `s` otherwise; the names other than `s` keep their
occurrences and their relative order. The reading, the rewriting and the join
are those of the library functions, not those of the code. -/
theorem C2_toggle_rewrites_list (env : Session) (s : Str) :
    (Run env [s]).Get TOGGLECACHE =
        ([','].intercalate
          (if s ∈ specNames (env.Get TOGGLECACHE).1 then
            (specNames (env.Get TOGGLECACHE).1).filter (fun x => decide (x ≠ s))
          else specNames (env.Get TOGGLECACHE).1 ++ [s]), true) ∧
      (newToggles (readToggles (env.Get TOGGLECACHE).1) s).filter (fun x => decide (x ≠ s)) =
        (specNames (env.Get TOGGLECACHE).1).filter (fun x => decide (x ≠ s)) := by
  refine ⟨?_, ?_⟩
  · have h : (Run env [s]).Get TOGGLECACHE =
        (Join (newToggles (readToggles (env.Get TOGGLECACHE).1) s) [','], true) := by
      simp [Run, Session.Get, Session.Set]
    rw [h, newToggles_eq_spec, readToggles_eq_specNames, Join_eq_intercalate]
    rfl
  · rw [newToggles_eq_spec, readToggles_eq_specNames]
    unfold specToggles
    split
    · simp [List.filter_filter]
    · simp [List.filter_append]

/-- Witness of C2: with `a,git,b` stored, toggling `git` writes `a,b`; with
nothing stored it writes `git`. -/
theorem C2_toggle_rewrites_list_witness :
    (Run (sessionWith "a,git,b".toList) [git]).Get TOGGLECACHE = ("a,b".toList, true) ∧
      (Run emptySession [git]).Get TOGGLECACHE = ("git".toList, true) :=
  ⟨(C2_toggle_rewrites_list (sessionWith "a,git,b".toList) git).1.trans (by decide),
    (C2_toggle_rewrites_list emptySession git).1.trans (by decide)⟩

/-- C3, as stated, fails: toggling `git` on an empty session passes a TTL of
exactly 1440 minutes, which is not more than 1440. -/
theorem C3_ttl_not_more_than_one_day :
    ¬ ∃ t : Int, storedTTL (Run emptySession [git]) = some t ∧ 1440 < t := by
  decide

/-- C3, amended: for every segment name and every previously stored value the
toggle command passes a TTL of exactly 1440 minutes, that is exactly one day,
to the cache `Set`. -/
theorem C3_ttl_is_one_day (env : Session) (s : Str) :
    storedTTL (Run env [s]) = some 1440 := by
  simp [storedTTL, Run, Session.Set]

/-- C7, as stated, fails: with `git` stored, toggling the segment name
`node,git` writes `git,node,git`, whose names are not pairwise distinct. -/
theorem C7_toggle_comma_name_duplicates :
    (readToggles (storedToggles (sessionWith "git".toList))).Nodup ∧
      storedToggles (Run (sessionWith "git".toList) ["node,git".toList]) =
        "git,node,git".toList ∧
      ¬ (readToggles
          (storedToggles (Run (sessionWith "git".toList) ["node,git".toList]))).Nodup := by
  decide

/-- C7, amended: for every stored toggle value whose names are pairwise
distinct and every segment name that contains no comma, the names of the value
written back are again pairwise distinct. -/
theorem C7_toggle_keeps_names_distinct (env : Session) (s : Str)
    (hL : (readToggles (storedToggles env)).Nodup) (hs : ',' ∉ s) :
    (readToggles (storedToggles (Run env [s]))).Nodup := by
  rw [storedToggles_Run, newToggles_eq_spec]
  by_cases hnil : specToggles (readToggles (storedToggles env)) s = [[]]
  · rw [hnil]
    decide
  · rw [readToggles_Join _
      (specToggles_no_comma _ s (readToggles_no_comma _) hs) hnil]
    exact specToggles_nodup _ s hL

/-- Witness of C7: the stored value `a,b` and the segment `git`. -/
theorem C7_toggle_keeps_names_distinct_witness :
    (readToggles (storedToggles (sessionWith "a,b".toList))).Nodup ∧ ',' ∉ git ∧
      (readToggles (storedToggles (Run (sessionWith "a,b".toList) [git]))).Nodup :=
  ⟨by decide, by decide,
    C7_toggle_keeps_names_distinct (sessionWith "a,b".toList) git (by decide) (by decide)⟩

end cli

/-! ## The right prompt -/

namespace prompt

open config

theorem findRPrompt_none {β : Type} (blocks : List (Block β)) (i : Nat)
    (h : ∀ x ∈ blocks, x.Type_ ≠ config.RPrompt) : findRPrompt blocks i = none := by
  induction blocks generalizing i with
  | nil => rfl
  | cons x rest ih =>
    rw [findRPrompt, if_pos (h x (List.mem_cons_self _ _))]
    exact ih (i + 1) (fun y hy => h y (List.mem_cons_of_mem _ hy))

theorem findRPrompt_first {β : Type} (pre post : List (Block β)) (b : Block β) (i : Nat)
    (hpre : ∀ x ∈ pre, x.Type_ ≠ config.RPrompt) (hb : b.Type_ = config.RPrompt) :
    findRPrompt (pre ++ b :: post) i = some (i + pre.length, b) := by
  induction pre generalizing i with
  | nil =>
    rw [List.nil_append, findRPrompt, if_neg (by simp [hb])]
    rfl
  | cons x rest ih =>
    rw [List.cons_append, findRPrompt, if_pos (hpre x (List.mem_cons_self _ _)),
      ih (i + 1) (fun y hy => hpre y (List.mem_cons_of_mem _ hy))]
    simp only [List.length_cons]
    congr 2
    omega

theorem set_first {β : Type} (pre post : List (Block β)) (b x : Block β) :
    (pre ++ b :: post).set pre.length x = pre ++ x :: post := by
  induction pre with
  | nil => rfl
  | cons y rest ih => simp [ih]

theorem RPrompt_none {β : Type} (c : Collaborators β) (e : Engine β)
    (h : ∀ x ∈ e.Config.Blocks, x.Type_ ≠ config.RPrompt) :
    RPrompt c e = ⟨[], e, []⟩ := by
  unfold RPrompt
  rw [findRPrompt_none _ 0 h]

theorem RPrompt_disabled {β : Type} (c : Collaborators β) (env : runtime.Environment)
    (n : Int) (pre post : List (Block β)) (b : Block β)
    (hpre : ∀ x ∈ pre, x.Type_ ≠ config.RPrompt) (hb : b.Type_ = config.RPrompt)
    (hen : c.Enabled (c.Init env b) = false) :
    RPrompt c ⟨⟨pre ++ b :: post⟩, env, n⟩ =
      ⟨[], ⟨⟨pre ++ c.Init env b :: post⟩, env, n⟩,
        [Call.Init pre.length, Call.Enabled pre.length]⟩ := by
  unfold RPrompt
  simp only [findRPrompt_first pre post b 0 hpre hb, hen, Nat.zero_add, set_first]
  rfl

theorem RPrompt_enabled {β : Type} (c : Collaborators β) (env : runtime.Environment)
    (n : Int) (pre post : List (Block β)) (b : Block β)
    (hpre : ∀ x ∈ pre, x.Type_ ≠ config.RPrompt) (hb : b.Type_ = config.RPrompt)
    (hen : c.Enabled (c.Init env b) = true) :
    RPrompt c ⟨⟨pre ++ b :: post⟩, env, n⟩ =
      ⟨if env.Shell = shell.ELVISH ∧ env.GOOS ≠ runtime.WINDOWS then
          (c.renderBlockSegments ⟨⟨pre ++ c.Init env b :: post⟩, env, n⟩
            (c.Init env b)).1 ++ " ".toList
        else (c.renderBlockSegments ⟨⟨pre ++ c.Init env b :: post⟩, env, n⟩ (c.Init env b)).1,
        ⟨⟨pre ++ c.Init env b :: post⟩, env,
          (c.renderBlockSegments ⟨⟨pre ++ c.Init env b :: post⟩, env, n⟩ (c.Init env b)).2⟩,
        [Call.Init pre.length, Call.Enabled pre.length,
          Call.renderBlockSegments pre.length]⟩ := by
  unfold RPrompt
  simp only [findRPrompt_first pre post b 0 hpre hb, hen, Nat.zero_add, set_first]
  rfl

/-- C5, as stated, fails: with the shell elvish on Windows the text returned for
an enabled rprompt block is the layout text without a trailing space. -/
theorem C5_elvish_on_windows_gets_no_space :
    (unitEngine [rpromptBlock] shell.ELVISH runtime.WINDOWS).Env.Shell = shell.ELVISH ∧
      (unitCollaborators true).Enabled
        ((unitCollaborators true).Init ⟨shell.ELVISH, runtime.WINDOWS⟩ rpromptBlock) = true ∧
      (RPrompt (unitCollaborators true)
        (unitEngine [rpromptBlock] shell.ELVISH runtime.WINDOWS)).text =
        ((unitCollaborators true).renderBlockSegments
          (unitEngine [rpromptBlock] shell.ELVISH runtime.WINDOWS) rpromptBlock).1 ∧
      (RPrompt (unitCollaborators true)
        (unitEngine [rpromptBlock] shell.ELVISH runtime.WINDOWS)).text ≠
        ((unitCollaborators true).renderBlockSegments
          (unitEngine [rpromptBlock] shell.ELVISH runtime.WINDOWS) rpromptBlock).1 ++
          " ".toList := by
  decide

/-- C5, amended: when the first rprompt block is enabled after initialisation,
`Engine.RPrompt` returns the layout text of that block followed by exactly one
space whenever the shell is elvish and the operating system is not Windows, and
exactly the layout text in every other case. -/
theorem C5_trailing_space_elvish_not_windows {β : Type} (c : Collaborators β)
    (env : runtime.Environment) (n : Int) (pre post : List (Block β)) (b : Block β)
    (hpre : ∀ x ∈ pre, x.Type_ ≠ config.RPrompt) (hb : b.Type_ = config.RPrompt)
    (hen : c.Enabled (c.Init env b) = true) :
    (RPrompt c ⟨⟨pre ++ b :: post⟩, env, n⟩).text =
      if env.Shell = shell.ELVISH ∧ env.GOOS ≠ runtime.WINDOWS then
        (c.renderBlockSegments ⟨⟨pre ++ c.Init env b :: post⟩, env, n⟩ (c.Init env b)).1 ++ [' ']
      else (c.renderBlockSegments ⟨⟨pre ++ c.Init env b :: post⟩, env, n⟩ (c.Init env b)).1 := by
  rw [RPrompt_enabled c env n pre post b hpre hb hen]
  rfl

/-- Witness of C5: elvish on linux, one prompt block before the rprompt block. -/
theorem C5_trailing_space_elvish_not_windows_witness :
    (RPrompt (unitCollaborators true)
        ⟨⟨[promptBlock] ++ rpromptBlock :: []⟩, ⟨shell.ELVISH, "linux".toList⟩, 0⟩).text =
      "x ".toList :=
  (C5_trailing_space_elvish_not_windows (unitCollaborators true)
    ⟨shell.ELVISH, "linux".toList⟩ 0 [promptBlock] [] rpromptBlock
    (by decide) (by decide) (by decide)).trans (by decide)

/-- C8: after `Engine.RPrompt` renders the enabled first rprompt block, the
engine field `rpromptLength` is the width returned by `renderBlockSegments` for
that block, for every shell and operating system; when there is no rprompt block
or the block is not enabled, the result is the empty string and `rpromptLength`
is unchanged. -/
theorem C8_rpromptLength_is_measured_width {β : Type} (c : Collaborators β)
    (env : runtime.Environment) (n : Int) (blocks : List (Block β)) :
    ((∀ x ∈ blocks, x.Type_ ≠ config.RPrompt) →
        (RPrompt c ⟨⟨blocks⟩, env, n⟩).text = [] ∧
        (RPrompt c ⟨⟨blocks⟩, env, n⟩).engine.rpromptLength = n) ∧
      (∀ (pre post : List (Block β)) (b : Block β), blocks = pre ++ b :: post →
        (∀ x ∈ pre, x.Type_ ≠ config.RPrompt) → b.Type_ = config.RPrompt →
        (c.Enabled (c.Init env b) = true →
          (RPrompt c ⟨⟨blocks⟩, env, n⟩).engine.rpromptLength =
            (c.renderBlockSegments ⟨⟨pre ++ c.Init env b :: post⟩, env, n⟩ (c.Init env b)).2) ∧
        (c.Enabled (c.Init env b) = false →
          (RPrompt c ⟨⟨blocks⟩, env, n⟩).text = [] ∧
          (RPrompt c ⟨⟨blocks⟩, env, n⟩).engine.rpromptLength = n)) := by
  constructor
  · intro h
    rw [RPrompt_none c ⟨⟨blocks⟩, env, n⟩ h]
    exact ⟨rfl, rfl⟩
  · intro pre post b hblocks hpre hb
    subst hblocks
    constructor
    · intro hen
      rw [RPrompt_enabled c env n pre post b hpre hb hen]
    · intro hen
      rw [RPrompt_disabled c env n pre post b hpre hb hen]
      exact ⟨rfl, rfl⟩

/-- Witness of C8: an enabled rprompt block after a prompt block, the same
block when it is not enabled, and a list without rprompt block, each with a
previous `rpromptLength` of 7. -/
theorem C8_rpromptLength_is_measured_width_witness :
    (RPrompt (unitCollaborators true)
        ⟨⟨[promptBlock, rpromptBlock]⟩, ⟨shell.ELVISH, "linux".toList⟩, 7⟩).engine.rpromptLength =
        1 ∧
      ((RPrompt (unitCollaborators false)
          ⟨⟨[promptBlock, rpromptBlock]⟩, ⟨shell.ELVISH, "linux".toList⟩, 7⟩).text = [] ∧
        (RPrompt (unitCollaborators false)
          ⟨⟨[promptBlock, rpromptBlock]⟩, ⟨shell.ELVISH, "linux".toList⟩, 7⟩).engine.rpromptLength
          = 7) ∧
      ((RPrompt (unitCollaborators true)
          ⟨⟨[promptBlock]⟩, ⟨shell.ELVISH, "linux".toList⟩, 7⟩).text = [] ∧
        (RPrompt (unitCollaborators true)
          ⟨⟨[promptBlock]⟩, ⟨shell.ELVISH, "linux".toList⟩, 7⟩).engine.rpromptLength = 7) :=
  ⟨(((C8_rpromptLength_is_measured_width (unitCollaborators true)
      ⟨shell.ELVISH, "linux".toList⟩ 7 [promptBlock, rpromptBlock]).2
      [promptBlock] [] rpromptBlock rfl (by decide) (by decide)).1 (by decide)).trans rfl,
    ((C8_rpromptLength_is_measured_width (unitCollaborators false)
      ⟨shell.ELVISH, "linux".toList⟩ 7 [promptBlock, rpromptBlock]).2
      [promptBlock] [] rpromptBlock rfl (by decide) (by decide)).2 (by decide),
    (C8_rpromptLength_is_measured_width (unitCollaborators true)
      ⟨shell.ELVISH, "linux".toList⟩ 7 [promptBlock]).1 (by decide)⟩

end prompt

/-! ## The command line -/

namespace main_

open strings

/-- C6: once none of the informational flags version, print-shell, millis,
cache-path, init, print-init, print-config and debug is set, `main` invokes
exactly one of the four renderers, for every value of the other flags: the
transient prompt when print-transient is set, otherwise the tooltip when the
command text is non-empty, otherwise the right prompt when rprompt is set,
otherwise the primary prompt. -/
theorem C6_main_renders_only_the_requested_prompt (args : Args)
    (hVersion : args.Version = false) (hPrintShell : args.PrintShell = false)
    (hMillis : args.Millis = false) (hCachePath : args.CachePath = false)
    (hInit : args.Init = false) (hPrintInit : args.PrintInit = false)
    (hPrintConfig : args.PrintConfig = false) (hDebug : args.Debug = false) :
    renderers args = [requested args] := by
  unfold renderers main requested
  simp only [hVersion, hPrintShell, hMillis, hCachePath, hInit, hPrintInit, hPrintConfig,
    hDebug]
  cases args.PrintTransient <;> cases args.RPrompt <;> cases args.ExportPNG <;>
    cases args.Command <;> simp [List.filter, Step.isRenderer]

/-- Witness of C6: only the rprompt and export-png flags are set. -/
theorem C6_main_renders_only_the_requested_prompt_witness :
    renderers ⟨false, false, false, false, false, false, false, true, true, [], false, false⟩ =
      [requested ⟨false, false, false, false, false, false, false, true, true, [], false, false⟩] :=
  C6_main_renders_only_the_requested_prompt
    ⟨false, false, false, false, false, false, false, true, true, [], false, false⟩
    rfl rfl rfl rfl rfl rfl rfl rfl

end main_

/-! ## The python segment -/

namespace python_

open properties

theorem canUseVenvName_iff_usable (p : python) (name : Str) :
    canUseVenvName p name = true ↔
      usable (p.language.props.GetBool DisplayDefault true) name := by
  unfold canUseVenvName usable
  have e1 : ("system".toList = name) = (name = "system".toList) :=
    propext ⟨fun e => e.symm, fun e => e.symm⟩
  have e2 : ("base".toList = name) = (name = "base".toList) :=
    propext ⟨fun e => e.symm, fun e => e.symm⟩
  simp only [invalidNamesLoop, e1, e2]
  by_cases h1 : name = "".toList
  · simp [h1]
  · by_cases h2 : name = ".".toList
    · simp [h2]
    · rw [if_neg (by tauto)]
      cases hd : p.language.props.GetBool DisplayDefault true with
      | true => exact ⟨fun _ => ⟨h1, h2, fun h => by cases h⟩, fun _ => by simp⟩
      | false =>
        by_cases h3 : name = "system".toList
        · simp [h3]
        · by_cases h4 : name = "base".toList
          · simp [h4]
          · rw [if_neg (by simp), if_neg h3, if_neg h4]
            exact ⟨fun _ => ⟨h1, h2, fun _ => ⟨h3, h4⟩⟩, fun _ => rfl⟩

theorem loadContextLoop_Venv (p : python) (vars : List Str) :
    (loadContextLoop p vars).Venv =
      match (vars.map fun v => p.language.env.Base (p.language.env.Getenv v)).find?
          (fun name => decide (usable (p.language.props.GetBool DisplayDefault true) name)) with
      | some name => name
      | none => p.Venv := by
  induction vars with
  | nil => rfl
  | cons v rest ih =>
    rw [loadContextLoop, List.map_cons, List.find?_cons]
    by_cases h : canUseVenvName p (p.language.env.Base (p.language.env.Getenv v)) = true
    · have hu := (canUseVenvName_iff_usable p _).1 h
      simp only [h, if_true, hu, decide_True]
    · have hu : ¬ usable (p.language.props.GetBool DisplayDefault true)
          (p.language.env.Base (p.language.env.Getenv v)) :=
        fun hu => h ((canUseVenvName_iff_usable p _).2 hu)
      simp only [h, hu, decide_False]
      exact ih

/-- C9: the method `canUseVenvName` accepts exactly the usable names. When
fetch_virtual_env is true, `loadContext` sets `Venv` to the base name of the first
of VIRTUAL_ENV, CONDA_ENV_PATH, CONDA_DEFAULT_ENV, PYENV_VERSION whose base name
is usable and leaves `Venv` unchanged when none is; when fetch_virtual_env is
false `Venv` is unchanged. Starting from an empty `Venv`, the result is never `.`
and, with display_default false, never `system` or `base`. -/
theorem C9_python_venv_selection (p : python) :
    (∀ name, canUseVenvName p name = true ↔
        usable (p.language.props.GetBool DisplayDefault true) name) ∧
      (loadContext p).Venv =
        (if p.language.props.GetBool FetchVirtualEnv true = true then selected p
          else p.Venv) ∧
      (p.Venv = [] →
        (loadContext p).Venv ≠ ".".toList ∧
        (p.language.props.GetBool DisplayDefault true = false →
          (loadContext p).Venv ≠ "system".toList ∧ (loadContext p).Venv ≠ "base".toList)) := by
  have hload : (loadContext p).Venv =
      (if p.language.props.GetBool FetchVirtualEnv true = true then selected p
        else p.Venv) := by
    unfold loadContext selected
    cases hf : p.language.props.GetBool FetchVirtualEnv true with
    | false => rfl
    | true =>
      have hc : (venvVars.map fun v => p.language.env.Base (p.language.env.Getenv v)) =
          candidates p := rfl
      rw [← hc]
      exact loadContextLoop_Venv p venvVars
  refine ⟨canUseVenvName_iff_usable p, hload, ?_⟩
  intro hempty
  have hsel : selected p = [] ∨
      usable (p.language.props.GetBool DisplayDefault true) (selected p) := by
    unfold selected
    cases hfind : (candidates p).find?
        (fun name => decide (usable (p.language.props.GetBool DisplayDefault true) name)) with
    | none => exact Or.inl hempty
    | some name =>
      have := List.find?_some hfind
      exact Or.inr (by simpa using this)
  have hres : (loadContext p).Venv = [] ∨
      usable (p.language.props.GetBool DisplayDefault true) (loadContext p).Venv := by
    rw [hload]
    split
    · exact hsel
    · exact Or.inl hempty
  rcases hres with h | h
  · rw [h]
    exact ⟨by decide, fun _ => ⟨by decide, by decide⟩⟩
  · exact ⟨h.2.1, h.2.2⟩

/-- Witness of C9: with display_default false the candidate `base` of
CONDA_DEFAULT_ENV is skipped and `3.11` of PYENV_VERSION is selected; with
display_default true `base` is selected. -/
theorem C9_python_venv_selection_witness :
    (example_ false).Venv = [] ∧
      (example_ false).language.props.GetBool DisplayDefault true = false ∧
      (example_ false).language.props.GetBool FetchVirtualEnv true = true ∧
      (loadContext (example_ false)).Venv = "3.11".toList ∧
      (loadContext (example_ true)).Venv = "base".toList ∧
      (loadContext (example_ false)).Venv ≠ ".".toList ∧
      (loadContext (example_ false)).Venv ≠ "system".toList ∧
      (loadContext (example_ false)).Venv ≠ "base".toList :=
  ⟨rfl, by decide, by decide,
    (C9_python_venv_selection (example_ false)).2.1.trans (by decide),
    (C9_python_venv_selection (example_ true)).2.1.trans (by decide),
    ((C9_python_venv_selection (example_ false)).2.2 rfl).1,
    ((C9_python_venv_selection (example_ false)).2.2 rfl).2 (by decide)⟩

end python_

end OMP
